import Mathlib

/-!
# Verification of the `ImageLoadQueue` component of BiliVideoTracker

Shallow embedding of the browser-side image loading queue found in
`src/static/js/main.js` (class `ImageLoadQueue`, lines 9-232), together with
proofs about its scheduling, retry and caching behaviour.

Two levels of modelling are used:

* **Event level** (`LQ`, `step`, `run`): the queue's observable state
  (`queue`, `running`, in-flight executions, pending retry timers, the
  persistent cache store and the per-element DOM state) evolves under
  externally triggered events: calls to `addImage` / `clear`, completion of
  an in-flight load (success or failure), expiry of a retry timer, and the
  asynchronous completion of a fire-and-forget cache write.  JavaScript's
  single-threaded cooperative concurrency means the synchronous prefix of
  every handler runs atomically; each event below is exactly one such
  synchronous burst.

* **Execution level** (`loadImageExecE` and friends): one execution of
  `loadImage` for a single request, with the fallible collaborators
  (CacheStorage reads/writes, network fetches, timeouts) driven by explicit
  oracles, and thrown/rejected errors represented with `Except`.

Identifiers mirror the source where Lean allows: `addImage`,
`processQueue`, `clear`, `getCachedImage`, `cacheImage`, `getQueueStatus`.
DOM elements are identified by their `id` (the source keys queue entries by
`element.id`, generating a random id when absent); the `timestamp` field of
queue items is omitted because the source writes it and never reads it.
-/

namespace ImageLoadQueue

/-- A pending queue entry, as built by `addImage` (main.js lines 60-65):
`{ element, priority, retries: 0, timestamp }`.  The element is identified
by its id. -/
structure Req where
  tid : Nat
  priority : Int
  retries : Nat
deriving DecidableEq

/-- An in-flight execution of `loadImage`: the synchronous prefix has run
(`this.running++`, line 94) and the execution is suspended at an `await`.
It carries the queue item it was started with. -/
structure Job where
  tid : Nat
  priority : Int
  retries : Nat
deriving DecidableEq

/-- A pending `setTimeout` scheduled by the retry branch (lines 121-124):
when it fires it calls `this.addImage(element, queueItem.priority - 1)`. -/
structure RetryTimer where
  tid : Nat
  priority : Int
  delayMs : Nat
deriving DecidableEq

/-- The loader-relevant state of one DOM image element: whether
`dataset.src` is present, and the CSS classes `image-loaded`,
`image-loading`, `image-error` plus whether `src` currently holds the
fixed placeholder image (line 127). -/
structure ElemSt where
  hasSrc : Bool
  loaded : Bool
  loading : Bool
  error : Bool
  placeholder : Bool
deriving DecidableEq

/-- The whole observable state: the `ImageLoadQueue` instance fields
(`queue`, `running`, `maxConcurrent`, `maxRetries`, `retryDelay`), the
in-flight executions and pending retry timers, the DOM elements the queue
can see, and the persistent `caches` store (keyed by URL). -/
structure LQ where
  queue : List Req
  running : Int
  maxConcurrent : Nat
  maxRetries : Nat
  retryDelay : Nat
  jobs : List Job
  timers : List RetryTimer
  elems : List (Nat × ElemSt)
  cacheStore : List (String × String)
deriving DecidableEq

/-- Look up a DOM element by id. -/
def findElem : List (Nat × ElemSt) → Nat → Option ElemSt
  | [], _ => none
  | p :: ps, tid => if p.1 = tid then some p.2 else findElem ps tid

/-- The JS guard `imgElement && imgElement.dataset.src` (line 41) and the
read `element.dataset.src` (line 86): `false` when the element is missing
or has no `data-src`. -/
def hasSrcOf (es : List (Nat × ElemSt)) (tid : Nat) : Bool :=
  ((findElem es tid).map (fun e => e.hasSrc)).getD false

/-- Update the element with the given id in place. -/
def updElem (es : List (Nat × ElemSt)) (tid : Nat) (f : ElemSt → ElemSt) :
    List (Nat × ElemSt) :=
  es.map (fun p => if p.1 = tid then (p.1, f p.2) else p)

/-- One step of a stable insertion sort for the comparator
`(a, b) => b.priority - a.priority` (lines 55 and 68): keep `y` in front of
`x` exactly when `y.priority > x.priority`, so an element inserted from the
left lands before entries of equal priority, as a stable sort demands. -/
def insertB (x : Req) : List Req → List Req
  | [] => [x]
  | y :: ys => if x.priority < y.priority then y :: insertB x ys else x :: y :: ys

/-- Model of `Array.prototype.sort` with comparator
`(a, b) => b.priority - a.priority`.  ES2019 requires `sort` to be stable,
and the stable descending reordering of a list is unique, so any stable
sorting algorithm is the faithful model; we use insertion sort. -/
def jsSortDesc (l : List Req) : List Req := l.foldr insertB []

/-- Build the suspended execution for a dispatched queue item. -/
def mkJob (r : Req) : Job := ⟨r.tid, r.priority, r.retries⟩

/-- The body of `processQueue` (lines 75-81):
`while (running < maxConcurrent && queue.length > 0) { loadImage(queue.shift()) }`,
together with the synchronous prefix of `loadImage` (lines 84-94): if the
shifted item's element has no `dataset.src`, `loadImage` calls
`completeImage` (delete `dataset.src` if present - it is not, that is why
we are in this branch - then `running--` and a reentrant `processQueue`,
which coincides with simply continuing the while loop); otherwise
`running++` and the execution suspends at `await getCachedImage`.
The argument list is the current queue; every exit point writes the
remaining items back into the `queue` field. -/
def pqAux (s : LQ) : List Req → LQ
  | [] => { s with queue := [] }
  | item :: rest =>
    if s.running < (s.maxConcurrent : Int) then
      if hasSrcOf s.elems item.tid then
        pqAux { s with running := s.running + 1, jobs := s.jobs ++ [mkJob item] } rest
      else
        pqAux { s with running := s.running - 1 } rest
    else { s with queue := item :: rest }

/-- `processQueue` (lines 75-81). -/
def processQueue (s : LQ) : LQ := pqAux s s.queue

/-- `addImage(imgElement, priority)` (lines 39-72): reject elements without
`data-src`; if the element id is already queued, update its priority in
place and re-sort (no `processQueue`); otherwise push a fresh item with
`retries: 0`, re-sort, and run the scheduler step. -/
def addImage (s : LQ) (tid : Nat) (priority : Int) : LQ :=
  if hasSrcOf s.elems tid then
    if s.queue.any (fun r => r.tid = tid) then
      let q := s.queue.map (fun r => if r.tid = tid then { r with priority := priority } else r)
      { s with queue := jsSortDesc q }
    else
      let q := s.queue ++ [{ tid := tid, priority := priority, retries := 0 }]
      processQueue { s with queue := jsSortDesc q }
  else s

/-- `clear()` (lines 34-36): `this.queue = []`. -/
def clear (s : LQ) : LQ := { s with queue := [] }

/-- The resumption of a suspended `loadImage` execution once its cache
read / network fetch resolves (`ok = true`: the `try` body finished, lines
111-113; `ok = false`: the `catch` block, lines 114-130), followed by the
`finally` block (lines 131-135): `running--; processQueue()`.
On success the element gains `image-loaded` and loses `image-loading` and
`image-error`, and its `src` holds the loaded resource (not the
placeholder).  On failure the attempt necessarily went through
`loadImageFromNetwork`, which set `image-loading` (line 145) and the retry
branch does not clear it; `retries` is incremented on the local `queueItem`
and a `setTimeout` is registered for
`this.addImage(element, queueItem.priority - 1)` after
`retryDelay * 2 ** queueItem.retries` ms.  When `retries >= maxRetries`
the placeholder is applied and `image-error` set instead. -/
def loadImageSettle (s : LQ) (i : Nat) (ok : Bool) : LQ :=
  match s.jobs[i]? with
  | none => s
  | some j =>
    let s1 := { s with jobs := s.jobs.eraseIdx i }
    if ok then
      let es := updElem s1.elems j.tid (fun e => { e with loaded := true, loading := false, error := false, placeholder := false })
      let s2 := { s1 with elems := es }
      processQueue { s2 with running := s2.running - 1 }
    else
      if j.retries < s1.maxRetries then
        let tm : RetryTimer := { tid := j.tid, priority := j.priority - 1, delayMs := s1.retryDelay * 2 ^ (j.retries + 1) }
        let es := updElem s1.elems j.tid (fun e => { e with loading := true })
        let s2 := { s1 with timers := s1.timers ++ [tm], elems := es }
        processQueue { s2 with running := s2.running - 1 }
      else
        let es := updElem s1.elems j.tid (fun e => { e with placeholder := true, error := true, loading := false })
        let s2 := { s1 with elems := es }
        processQueue { s2 with running := s2.running - 1 }

/-- Expiry of a retry `setTimeout` (lines 121-124): call
`addImage(element, priority)` with the stored (already decremented)
priority.  `clear()` does not cancel these timers. -/
def fireTimer (s : LQ) (i : Nat) : LQ :=
  match s.timers[i]? with
  | none => s
  | some t => addImage { s with timers := s.timers.eraseIdx i } t.tid t.priority

/-- `cache.put(url, response)` semantics: last write for a key wins. -/
def putStore (store : List (String × String)) (k v : String) :
    List (String × String) :=
  (k, v) :: store.filter (fun p => p.1 ≠ k)

/-- `getQueueStatus()` (lines 225-231). -/
structure QueueStatus where
  queued : Nat
  running : Int
  maxConcurrent : Nat
deriving DecidableEq

/-- `getQueueStatus()` (lines 225-231). -/
def getQueueStatus (s : LQ) : QueueStatus :=
  ⟨s.queue.length, s.running, s.maxConcurrent⟩

/-- The externally triggered events.  `complete i ok` resolves the `i`-th
in-flight execution (its awaited cache read / network fetch settles);
`fire i` fires the `i`-th pending retry timer; `cachePut` is the
asynchronous completion of a fire-and-forget `cacheImage` write (modelled
as a free event, an over-approximation of the schedules the browser can
produce). -/
inductive Ev
  | add (tid : Nat) (priority : Int)
  | clear
  | complete (i : Nat) (ok : Bool)
  | fire (i : Nat)
  | cachePut (k v : String)

/-- Event dispatch. -/
def step (s : LQ) : Ev → LQ
  | .add tid p => addImage s tid p
  | .clear => clear s
  | .complete i ok => loadImageSettle s i ok
  | .fire i => fireTimer s i
  | .cachePut k v => { s with cacheStore := putStore s.cacheStore k v }

/-- Run a sequence of events. -/
def run (s : LQ) (evs : List Ev) : LQ := evs.foldl step s

/-- The constructor (lines 10-20): `maxConcurrent` is the parameter (the
page instantiates it with 2, line 235), `maxRetries = 2`,
`retryDelay = 500`; queue empty, nothing running.  `dom` lists the image
elements present on the page and whether each carries a `data-src`. -/
def init (maxC : Nat) (dom : List (Nat × Bool)) : LQ :=
  { queue := [], running := 0, maxConcurrent := maxC, maxRetries := 2,
    retryDelay := 500, jobs := [], timers := [],
    elems := dom.map (fun p => (p.1, ⟨p.2, false, false, false, false⟩)),
    cacheStore := [] }

/-- States reachable from a freshly constructed queue by any event
sequence. -/
def Reachable (s : LQ) : Prop :=
  ∃ maxC dom evs, s = run (init maxC dom) evs

/-- The pending queue is in descending priority order. -/
def QSorted (l : List Req) : Prop :=
  l.Pairwise (fun a b => b.priority ≤ a.priority)

/-- Insertion of a fresh submission: after every queued entry of priority
greater than or equal to its own, before the strictly smaller ones.  This
is what pushing to the end of a sorted array and stable-sorting amounts
to. -/
def insertAfterGe (x : Req) : List Req → List Req
  | [] => [x]
  | y :: ys => if x.priority ≤ y.priority then y :: insertAfterGe x ys else x :: y :: ys

/-! ## Execution level: one run of `loadImage` with explicit collaborators

Thrown exceptions / rejected promises are `Except.error`; every `try ...
catch` of the source becomes a `match` on the `Except` value of the
protected body. -/

/-- Observable side effects of one execution. -/
inductive Eff
  | netFetch (url : String)
  | cacheWrite (url : String)
deriving DecidableEq

/-- Failure behaviour of the CacheStorage collaborator during
`getCachedImage` (lines 172-190): whether the `caches` API exists, and
whether `caches.open`, `cache.match` or `response.blob` throw. -/
structure CacheReadFail where
  api : Bool
  openThrow : Bool
  matchThrow : Bool
  blobThrow : Bool
deriving DecidableEq

/-- `cache.match(url)` consults the persistent store. -/
def lookupStore : List (String × String) → String → Option String
  | [], _ => none
  | p :: ps, url => if p.1 = url then some p.2 else lookupStore ps url

/-- The body of `getCachedImage` before its `catch` (lines 173-184): the
`caches`-availability early return, then `open`, `match`, and on a found
response `blob()` + `URL.createObjectURL` (modelled as tagging the cached
content). -/
def getCachedImageE (o : CacheReadFail) (store : List (String × String))
    (url : String) : Except String (Option String) :=
  if o.api = false then .ok none
  else if o.openThrow then .error "caches.open"
  else if o.matchThrow then .error "cache.match"
  else
    match lookupStore store url with
    | none => .ok none
    | some v => if o.blobThrow then .error "response.blob" else .ok (some ("blob:" ++ v))

/-- `getCachedImage` (lines 172-190): any throw is caught, logged and turned
into `null`. -/
def getCachedImage (o : CacheReadFail) (store : List (String × String))
    (url : String) : Option String :=
  match getCachedImageE o store url with
  | .ok v => v
  | .error _ => none

/-- Failure behaviour of the collaborators during `cacheImage`
(lines 193-213): API availability, whether `caches.open` throws, the
outcome of `fetch(src)` (`none` = rejected, `some ok` = response with that
`response.ok`), and whether `cache.put` throws. -/
structure CacheWriteFail where
  api : Bool
  openThrow : Bool
  fetchRes : Option Bool
  putThrow : Bool
deriving DecidableEq

/-- The body of `cacheImage` before its `catch` (lines 194-209): early
return without the API or for `data:` URLs, then `open`, its own
`fetch(src)` and, on an OK response, `cache.put(url, response.clone())`.
The effect trace records the fetch even when it rejects.
`src.startsWith('data:')` is rendered as the character-level prefix test
(same function, stated over the string's characters). -/
def cacheImageE (o : CacheWriteFail) (url src : String)
    (store : List (String × String)) :
    List Eff × Except String (List (String × String)) :=
  if o.api = false then ([], .ok store)
  else if "data:".data.isPrefixOf src.data then ([], .ok store)
  else if o.openThrow then ([], .error "caches.open")
  else
    match o.fetchRes with
    | none => ([Eff.netFetch src], .error "fetch")
    | some rok =>
      if rok then
        if o.putThrow then ([Eff.netFetch src], .error "cache.put")
        else ([Eff.netFetch src, Eff.cacheWrite url], .ok (putStore store url src))
      else ([Eff.netFetch src], .ok store)

/-- `cacheImage` (lines 193-213): any throw is caught and logged; the store
is then left unchanged. -/
def cacheImage (o : CacheWriteFail) (url src : String)
    (store : List (String × String)) :
    List Eff × List (String × String) :=
  match cacheImageE o url src store with
  | (tr, .ok st) => (tr, st)
  | (tr, .error _) => (tr, store)

/-- `cacheImage` acting on the full loader state: only the persistent
store can change.  (The call at line 108 is fire-and-forget: `loadImage`
does not await it.) -/
def cacheImageB (s : LQ) (o : CacheWriteFail) (url src : String) :
    LQ × List Eff :=
  let r := cacheImage o url src s.cacheStore
  ({ s with cacheStore := r.2 }, r.1)

/-- Outcome of `loadImageFromNetwork`'s `new Image()` load (lines 139-168):
`onload`, `onerror`, or the 10-second timeout. -/
inductive NetRes
  | onload
  | onerror
  | timeout
deriving DecidableEq

/-- The element state seen by one execution: `dataset.src`, the applied
`src`, and the visual classes. -/
structure ExecElem where
  dataSrc : Option String
  src : Option String
  loaded : Bool
  loading : Bool
  error : Bool
deriving DecidableEq

/-- `loadImageFromNetwork` (lines 139-168): set `image-loading`, then the
promise resolves (`element.src = img.src`) or rejects (error / timeout).
The fetch of `url` is issued in every case. -/
def loadImageFromNetworkE (o : NetRes) (url : String) (e : ExecElem) :
    ExecElem × List Eff × Except String Unit :=
  let e1 := { e with loading := true }
  match o with
  | .onload => ({ e1 with src := some url }, [Eff.netFetch url], .ok ())
  | .onerror => (e1, [Eff.netFetch url], .error "img.onerror")
  | .timeout => (e1, [Eff.netFetch url], .error "timeout")

/-- The fixed placeholder resource (line 127). -/
def defaultImage : String := "/static/images/viedeo_material_default.png"

/-- Result of one `loadImage` execution: the element, the persistent
store, the side-effect trace, the net change this execution applied to
`this.running`, and the retry timer it scheduled (delay ms, new priority),
if any. -/
structure ExecOut where
  elem : ExecElem
  store : List (String × String)
  trace : List Eff
  runDelta : Int
  timer : Option (Nat × Int)
deriving DecidableEq

/-- One full execution of `loadImage` (lines 84-136) for a queue item with
the given `retries` and `priority`.  The outer `Except` is the promise of
the `async` method itself: an uncaught throw would surface here as
`.error`.  Missing `dataset.src` takes the `completeImage` early return
(lines 88-92, net `running` change `-1` with no matching increment);
otherwise `running++`, cache-first lookup, network fallback with
fire-and-forget `cacheImage(imageUrl, element.src)`, and the
`catch`/`finally` handling of a failed attempt. -/
def loadImageExecE (oc : CacheReadFail) (onet : NetRes) (ow : CacheWriteFail)
    (retries : Nat) (priority : Int) (maxRetries retryDelay : Nat)
    (e : ExecElem) (store : List (String × String)) : Except String ExecOut :=
  match e.dataSrc with
  | none => .ok ⟨e, store, [], -1, none⟩
  | some url =>
    let attempt : ExecElem × List (String × String) × List Eff × Except String Unit :=
      match getCachedImage oc store url with
      | some u => ({ e with src := some u }, store, [], .ok ())
      | none =>
        match loadImageFromNetworkE onet url e with
        | (e1, tr1, .ok _) =>
          let r2 := cacheImage ow url (e1.src.getD "") store
          (e1, r2.2, tr1 ++ r2.1, .ok ())
        | (e1, tr1, .error msg) => (e1, store, tr1, .error msg)
    match attempt with
    | (e2, st2, tr2, .ok _) =>
      .ok ⟨{ e2 with loaded := true, loading := false, error := false }, st2, tr2, 0, none⟩
    | (e2, st2, tr2, .error _) =>
      if retries < maxRetries then
        .ok ⟨e2, st2, tr2, 0, some (retryDelay * 2 ^ (retries + 1), priority - 1)⟩
      else
        .ok ⟨{ e2 with src := some defaultImage, error := true, loading := false }, st2, tr2, 0, none⟩

/-! ## Sorting lemmas -/

theorem insertB_perm (x : Req) (l : List Req) : List.Perm (insertB x l) (x :: l) := by
  induction l with
  | nil => simp [insertB]
  | cons y ys ih =>
    by_cases h : x.priority < y.priority
    · simp only [insertB, if_pos h]
      exact ((ih.cons y).trans (List.Perm.swap x y ys))
    · simp [insertB, if_neg h]

theorem jsSortDesc_perm (l : List Req) : List.Perm (jsSortDesc l) l := by
  induction l with
  | nil => simp [jsSortDesc]
  | cons y ys ih =>
    have : jsSortDesc (y :: ys) = insertB y (jsSortDesc ys) := rfl
    rw [this]
    exact (insertB_perm y (jsSortDesc ys)).trans (ih.cons y)

theorem insertB_sorted (x : Req) {l : List Req} (h : QSorted l) :
    QSorted (insertB x l) := by
  induction l with
  | nil => simp [insertB, QSorted]
  | cons y ys ih =>
    rw [QSorted, List.pairwise_cons] at h
    obtain ⟨hy, hys⟩ := h
    by_cases hc : x.priority < y.priority
    · rw [insertB, if_pos hc, QSorted, List.pairwise_cons]
      constructor
      · intro b hb
        rcases List.mem_cons.mp ((insertB_perm x ys).mem_iff.mp hb) with hb | hb
        · subst hb; exact le_of_lt hc
        · exact hy b hb
      · exact ih hys
    · rw [insertB, if_neg hc, QSorted, List.pairwise_cons]
      constructor
      · intro b hb
        rcases List.mem_cons.mp hb with hb | hb
        · subst hb; exact not_lt.mp hc
        · exact le_trans (hy b hb) (not_lt.mp hc)
      · exact List.pairwise_cons.mpr ⟨hy, hys⟩

theorem jsSortDesc_sorted (l : List Req) : QSorted (jsSortDesc l) := by
  induction l with
  | nil => simp [jsSortDesc, QSorted]
  | cons y ys ih => exact insertB_sorted y ih

theorem insertB_front (x : Req) {l : List Req}
    (h : ∀ b ∈ l, b.priority ≤ x.priority) : insertB x l = x :: l := by
  cases l with
  | nil => rfl
  | cons y ys =>
    have : ¬ x.priority < y.priority := not_lt.mpr (h y (by simp))
    rw [insertB, if_neg this]

theorem insertAfterGe_perm (x : Req) (l : List Req) :
    List.Perm (insertAfterGe x l) (x :: l) := by
  induction l with
  | nil => simp [insertAfterGe]
  | cons y ys ih =>
    by_cases h : x.priority ≤ y.priority
    · simp only [insertAfterGe, if_pos h]
      exact ((ih.cons y).trans (List.Perm.swap x y ys))
    · simp [insertAfterGe, if_neg h]

theorem insertAfterGe_front (x : Req) {l : List Req}
    (h : ∀ b ∈ l, b.priority < x.priority) : insertAfterGe x l = x :: l := by
  cases l with
  | nil => rfl
  | cons y ys =>
    have : ¬ x.priority ≤ y.priority := not_le.mpr (h y (by simp))
    rw [insertAfterGe, if_neg this]

/-- Pushing a fresh item to the end of an already sorted queue and
stable-sorting (what `addImage` does, lines 60-68) places it exactly after
every entry of greater-or-equal priority: insertion order is the tie-break
for fresh submissions. -/
theorem jsSortDesc_push (x : Req) {l : List Req} (h : QSorted l) :
    jsSortDesc (l ++ [x]) = insertAfterGe x l := by
  induction l with
  | nil => rfl
  | cons y ys ih =>
    rw [QSorted, List.pairwise_cons] at h
    obtain ⟨hy, hys⟩ := h
    have hstep : jsSortDesc ((y :: ys) ++ [x]) = insertB y (jsSortDesc (ys ++ [x])) := rfl
    rw [hstep, ih hys]
    by_cases hc : x.priority ≤ y.priority
    · rw [insertAfterGe, if_pos hc]
      refine insertB_front y ?_
      intro b hb
      rcases List.mem_cons.mp ((insertAfterGe_perm x ys).mem_iff.mp hb) with hb | hb
      · subst hb; exact hc
      · exact hy b hb
    · rw [insertAfterGe, if_neg hc]
      have hx : y.priority < x.priority := not_le.mp hc
      have h1 : insertAfterGe x ys = x :: ys :=
        insertAfterGe_front x (fun b hb => lt_of_le_of_lt (hy b hb) hx)
      rw [h1, insertB, if_pos hx, insertB_front y hy]

/-- A sorted queue is a fixed point of the sort. -/
theorem jsSortDesc_fixed {l : List Req} (h : QSorted l) : jsSortDesc l = l := by
  induction l with
  | nil => rfl
  | cons y ys ih =>
    rw [QSorted, List.pairwise_cons] at h
    obtain ⟨hy, hys⟩ := h
    have hstep : jsSortDesc (y :: ys) = insertB y (jsSortDesc ys) := rfl
    rw [hstep, ih hys, insertB_front y hy]

/-! ## Scheduler-step lemmas -/

/-- The `while` loop of `processQueue` never touches the concurrency
limits, the retry configuration, the timers, the DOM elements or the
persistent store. -/
theorem pqAux_frame (q : List Req) (s : LQ) :
    (pqAux s q).maxConcurrent = s.maxConcurrent ∧
    (pqAux s q).maxRetries = s.maxRetries ∧
    (pqAux s q).retryDelay = s.retryDelay ∧
    (pqAux s q).timers = s.timers ∧
    (pqAux s q).elems = s.elems ∧
    (pqAux s q).cacheStore = s.cacheStore := by
  induction q generalizing s with
  | nil => simp [pqAux]
  | cons item rest ih =>
    by_cases h1 : s.running < (s.maxConcurrent : Int)
    · by_cases h2 : hasSrcOf s.elems item.tid = true
      · rw [pqAux, if_pos h1, if_pos h2]
        exact ih _
      · rw [pqAux, if_pos h1, if_neg h2]
        exact ih _
    · rw [pqAux, if_neg h1]
      exact ⟨rfl, rfl, rfl, rfl, rfl, rfl⟩

/-- When the loop exits there is no free slot left while work is pending:
the scheduler step is work-conserving. -/
theorem pqAux_post (q : List Req) (s : LQ) :
    (pqAux s q).running < ((pqAux s q).maxConcurrent : Int) → (pqAux s q).queue = [] := by
  induction q generalizing s with
  | nil => intro _; rw [pqAux]
  | cons item rest ih =>
    by_cases h1 : s.running < (s.maxConcurrent : Int)
    · by_cases h2 : hasSrcOf s.elems item.tid = true
      · rw [pqAux, if_pos h1, if_pos h2]
        exact ih _
      · rw [pqAux, if_pos h1, if_neg h2]
        exact ih _
    · rw [pqAux, if_neg h1]
      intro hlt
      exact absurd hlt h1

/-- Full characterisation of the loop when every queued element still has
its `data-src` (true of every reachable state): some prefix of length `k`
is dispatched, each dispatch moving its item into the in-flight set and
incrementing `running`; the loop stops early only when the limit is
reached. -/
theorem pqAux_spec (q : List Req) (s : LQ)
    (hsrc : ∀ r ∈ q, hasSrcOf s.elems r.tid = true) :
    ∃ k, k ≤ q.length ∧
      (pqAux s q).queue = q.drop k ∧
      (pqAux s q).running = s.running + (k : Int) ∧
      (pqAux s q).jobs = s.jobs ++ (q.take k).map mkJob ∧
      ((pqAux s q).running < (s.maxConcurrent : Int) → q.drop k = []) ∧
      (s.running ≤ (s.maxConcurrent : Int) →
        (pqAux s q).running ≤ (s.maxConcurrent : Int)) := by
  induction q generalizing s with
  | nil =>
    refine ⟨0, by simp, ?_, by simp [pqAux], by simp [pqAux], by simp [pqAux], ?_⟩
    · rw [pqAux]; rfl
    · intro h; rw [pqAux]; exact h
  | cons item rest ih =>
    by_cases h1 : s.running < (s.maxConcurrent : Int)
    · have h2 : hasSrcOf s.elems item.tid = true := hsrc item (by simp)
      have hrw : pqAux s (item :: rest) =
          pqAux { s with running := s.running + 1, jobs := s.jobs ++ [mkJob item] } rest := by
        rw [pqAux, if_pos h1, if_pos h2]
      obtain ⟨k, hk, hq, hr, hj, hstop, hle⟩ :=
        ih { s with running := s.running + 1, jobs := s.jobs ++ [mkJob item] }
          (fun r hr => hsrc r (List.mem_cons_of_mem _ hr))
      refine ⟨k + 1, by simpa using Nat.succ_le_succ hk, ?_, ?_, ?_, ?_, ?_⟩
      · rw [hrw, List.drop_succ_cons]; exact hq
      · rw [hrw, hr]
        show s.running + 1 + (k : Int) = s.running + ((k + 1 : Nat) : Int)
        push_cast; ring
      · rw [hrw, hj, List.take_succ_cons, List.map_cons]
        show (s.jobs ++ [mkJob item]) ++ _ = _
        simp
      · intro hlt
        rw [hrw] at hlt
        rw [List.drop_succ_cons]
        exact hstop hlt
      · intro _
        rw [hrw]
        refine hle ?_
        show s.running + 1 ≤ (s.maxConcurrent : Int)
        omega
    · rw [pqAux, if_neg h1]
      refine ⟨0, by simp, rfl, by simp, by simp, ?_, ?_⟩
      · intro hlt; exact absurd hlt h1
      · intro h; exact h

/-! ## The reachable-state invariant -/

/-- Looking up after an in-place update: only the updated id is affected,
and only by `f`. -/
theorem findElem_updElem (es : List (Nat × ElemSt)) (t : Nat) (f : ElemSt → ElemSt)
    (x : Nat) :
    findElem (updElem es t f) x =
      if x = t then (findElem es x).map f else findElem es x := by
  induction es with
  | nil => by_cases h : x = t <;> simp [findElem, updElem, h]
  | cons q qs ih =>
    by_cases ht : q.1 = t
    · by_cases hq : q.1 = x
      · have hxt : x = t := by rw [← hq]; exact ht
        simp [updElem, findElem, ht, hq, hxt]
      · have h1 : ¬ t = x := by rw [← ht]; exact hq
        have h2 : ¬ x = t := fun hh => h1 hh.symm
        simpa [updElem, findElem, ht, hq, h1, h2] using ih
    · by_cases hq : q.1 = x
      · have h2 : ¬ x = t := by
          intro hh
          exact ht (by rw [hq, hh])
        simp [updElem, findElem, ht, hq, h2]
      · simpa [updElem, findElem, ht, hq] using ih

/-- Updating an element's visual classes never changes whether it has a
`data-src`. -/
theorem hasSrcOf_updElem (es : List (Nat × ElemSt)) (t : Nat) (f : ElemSt → ElemSt)
    (hf : ∀ e, (f e).hasSrc = e.hasSrc) (x : Nat) :
    hasSrcOf (updElem es t f) x = hasSrcOf es x := by
  rw [hasSrcOf, hasSrcOf, findElem_updElem]
  by_cases h : x = t
  · rw [if_pos h]
    cases findElem es x <;> simp [hf]
  · rw [if_neg h]

/-- The in-place priority update of `addImage`'s re-add branch does not
change the ids present in the queue. -/
theorem map_tid_update (l : List Req) (tid : Nat) (p : Int) :
    (l.map (fun r => if r.tid = tid then { r with priority := p } else r)).map Req.tid
      = l.map Req.tid := by
  rw [List.map_map]
  refine List.map_congr_left ?_
  intro r _
  by_cases h : r.tid = tid <;> simp [h]

/-- Facts maintained by every event handler, hence true of every reachable
state: `running` counts exactly the in-flight executions and stays within
the concurrency limit; the pending queue has no duplicate ids, is sorted
by descending priority, and all its entries reference elements that still
carry a `data-src`; every queued entry and every in-flight execution has
`retries = 0` (the counter incremented in the `catch` block lives on a
discarded object, and `addImage` rebuilds items with `retries: 0`); every
pending retry timer therefore has delay `retryDelay * 2^1`; and no element
ever carries `image-error` or the placeholder. -/
structure Inv (s : LQ) : Prop where
  run_jobs : s.running = (s.jobs.length : Int)
  run_le : s.running ≤ (s.maxConcurrent : Int)
  nodup : (s.queue.map Req.tid).Nodup
  sorted : QSorted s.queue
  qsrc : ∀ r ∈ s.queue, hasSrcOf s.elems r.tid = true
  qret : ∀ r ∈ s.queue, r.retries = 0
  jret : ∀ j ∈ s.jobs, j.retries = 0
  tdelay : ∀ t ∈ s.timers, t.delayMs = s.retryDelay * 2
  mr2 : s.maxRetries = 2
  noerr : ∀ p ∈ s.elems, p.2.error = false ∧ p.2.placeholder = false

theorem inv_init (maxC : Nat) (dom : List (Nat × Bool)) : Inv (init maxC dom) := by
  refine ⟨by simp [init], by simp [init], by simp [init], by simp [init, QSorted],
    by simp [init], by simp [init], by simp [init], by simp [init], rfl, ?_⟩
  intro p hp
  simp only [init] at hp
  obtain ⟨q, _, rfl⟩ := List.mem_map.mp hp
  exact ⟨rfl, rfl⟩

theorem inv_processQueue {s : LQ} (h : Inv s) : Inv (processQueue s) := by
  rw [processQueue]
  obtain ⟨k, hk, hq, hr, hj, _, hle⟩ := pqAux_spec s.queue s h.qsrc
  obtain ⟨hmc, hmr, hrd, htm, hel, _⟩ := pqAux_frame s.queue s
  have htake : (List.take k s.queue).length = k := by
    rw [List.length_take]; omega
  refine ⟨?_, ?_, ?_, ?_, ?_, ?_, ?_, ?_, ?_, ?_⟩
  · rw [hr, hj, h.run_jobs]
    simp only [List.length_append, List.length_map, htake]
    push_cast
    ring
  · rw [hr, hmc]
    rw [hr] at hle
    exact hle h.run_le
  · rw [hq]
    exact h.nodup.sublist ((List.drop_sublist k s.queue).map Req.tid)
  · rw [hq]
    exact h.sorted.sublist (List.drop_sublist k s.queue)
  · intro r hrm
    rw [hq] at hrm
    rw [hel]
    exact h.qsrc r (List.drop_subset k s.queue hrm)
  · intro r hrm
    rw [hq] at hrm
    exact h.qret r (List.drop_subset k s.queue hrm)
  · intro j hjm
    rw [hj] at hjm
    rcases List.mem_append.mp hjm with hjm | hjm
    · exact h.jret j hjm
    · obtain ⟨r, hrm, rfl⟩ := List.mem_map.mp hjm
      exact h.qret r (List.take_subset k s.queue hrm)
  · intro t htmem
    rw [htm] at htmem
    rw [hrd]
    exact h.tdelay t htmem
  · rw [hmr]
    exact h.mr2
  · intro p hp
    rw [hel] at hp
    exact h.noerr p hp

theorem inv_addImage {s : LQ} (h : Inv s) (tid : Nat) (p : Int) :
    Inv (addImage s tid p) := by
  by_cases hv : hasSrcOf s.elems tid = true
  · by_cases hin : s.queue.any (fun r => r.tid = tid) = true
    · rw [addImage, if_pos hv, if_pos hin]
      have htid := map_tid_update s.queue tid p
      refine ⟨h.run_jobs, h.run_le, ?_, jsSortDesc_sorted _, ?_, ?_, h.jret, h.tdelay,
        h.mr2, h.noerr⟩
      · show ((jsSortDesc _).map Req.tid).Nodup
        refine (((jsSortDesc_perm _).map Req.tid).nodup_iff).mpr ?_
        rw [htid]
        exact h.nodup
      · intro r hrm
        have hrm2 := (jsSortDesc_perm _).mem_iff.mp hrm
        obtain ⟨r0, hr0, rfl⟩ := List.mem_map.mp hrm2
        by_cases ht : r0.tid = tid
        · rw [if_pos ht]
          show hasSrcOf s.elems r0.tid = true
          exact h.qsrc r0 hr0
        · rw [if_neg ht]
          exact h.qsrc r0 hr0
      · intro r hrm
        have hrm2 := (jsSortDesc_perm _).mem_iff.mp hrm
        obtain ⟨r0, hr0, rfl⟩ := List.mem_map.mp hrm2
        by_cases ht : r0.tid = tid
        · rw [if_pos ht]
          show r0.retries = 0
          exact h.qret r0 hr0
        · rw [if_neg ht]
          exact h.qret r0 hr0
    · rw [addImage, if_pos hv, if_neg hin]
      have hnot : ∀ r ∈ s.queue, ¬ r.tid = tid := by
        intro r hr hc
        exact hin (List.any_eq_true.mpr ⟨r, hr, by simp [hc]⟩)
      refine inv_processQueue ⟨h.run_jobs, h.run_le, ?_, jsSortDesc_sorted _, ?_, ?_,
        h.jret, h.tdelay, h.mr2, h.noerr⟩
      · show ((jsSortDesc _).map Req.tid).Nodup
        refine (((jsSortDesc_perm _).map Req.tid).nodup_iff).mpr ?_
        rw [List.map_append]
        rw [List.nodup_append]
        refine ⟨h.nodup, List.nodup_singleton _, ?_⟩
        intro a ha hb
        simp only [List.map_cons, List.map_nil, List.mem_singleton] at hb
        obtain ⟨r, hr, rfl⟩ := List.mem_map.mp ha
        exact hnot r hr hb
      · intro r hrm
        have hrm2 := (jsSortDesc_perm _).mem_iff.mp hrm
        rcases List.mem_append.mp hrm2 with hrm2 | hrm2
        · exact h.qsrc r hrm2
        · simp only [List.mem_singleton] at hrm2
          subst hrm2
          exact hv
      · intro r hrm
        have hrm2 := (jsSortDesc_perm _).mem_iff.mp hrm
        rcases List.mem_append.mp hrm2 with hrm2 | hrm2
        · exact h.qret r hrm2
        · simp only [List.mem_singleton] at hrm2
          subst hrm2
          rfl
  · rw [addImage, if_neg hv]
    exact h

theorem inv_clear {s : LQ} (h : Inv s) : Inv (clear s) :=
  ⟨h.run_jobs, h.run_le, by simp [clear], by simp [clear, QSorted],
    by simp [clear], by simp [clear], h.jret, h.tdelay, h.mr2, h.noerr⟩

theorem inv_settle {s : LQ} (h : Inv s) (i : Nat) (ok : Bool) :
    Inv (loadImageSettle s i ok) := by
  rw [loadImageSettle]
  cases hj : s.jobs[i]? with
  | none => exact h
  | some j =>
    have hilt : i < s.jobs.length := (List.getElem?_eq_some.mp hj).1
    have hjm : j ∈ s.jobs := by
      obtain ⟨hi, he⟩ := List.getElem?_eq_some.mp hj
      exact he ▸ List.getElem_mem hi
    have hjr : j.retries = 0 := h.jret j hjm
    have hlen : (s.jobs.eraseIdx i).length = s.jobs.length - 1 :=
      List.length_eraseIdx_of_lt hilt
    have hjret : ∀ j' ∈ s.jobs.eraseIdx i, j'.retries = 0 := by
      intro j' hj'
      exact h.jret j' ((List.eraseIdx_sublist s.jobs i).subset hj')
    have hrunjobs : s.running - 1 = ((s.jobs.eraseIdx i).length : Int) := by
      rw [hlen]
      have := h.run_jobs
      omega
    have hrunle : s.running - 1 ≤ (s.maxConcurrent : Int) := by
      have := h.run_le
      omega
    cases ok with
    | true =>
      dsimp only
      refine inv_processQueue ⟨hrunjobs, hrunle, h.nodup, h.sorted, ?_, h.qret, hjret,
        h.tdelay, h.mr2, ?_⟩
      · intro r hrm
        exact (hasSrcOf_updElem s.elems j.tid (fun e => { e with loaded := true, loading := false, error := false, placeholder := false }) (fun e => rfl) r.tid).trans (h.qsrc r hrm)
      · intro q hq
        obtain ⟨q0, hq0, rfl⟩ := List.mem_map.mp hq
        by_cases hqt : q0.1 = j.tid
        · simp [hqt]
        · simp only [if_neg hqt]
          exact h.noerr q0 hq0
    | false =>
      have hretry : j.retries < s.maxRetries := by
        rw [hjr, h.mr2]; omega
      dsimp only
      rw [if_pos hretry]
      refine inv_processQueue ⟨hrunjobs, hrunle, h.nodup, h.sorted, ?_, h.qret, hjret,
        ?_, h.mr2, ?_⟩
      · intro r hrm
        exact (hasSrcOf_updElem s.elems j.tid (fun e => { e with loading := true }) (fun e => rfl) r.tid).trans (h.qsrc r hrm)
      · intro t htm
        rcases List.mem_append.mp htm with htm | htm
        · exact h.tdelay t htm
        · simp only [List.mem_singleton] at htm
          subst htm
          show s.retryDelay * 2 ^ (j.retries + 1) = s.retryDelay * 2
          rw [hjr]
          norm_num
      · intro q hq
        obtain ⟨q0, hq0, rfl⟩ := List.mem_map.mp hq
        by_cases hqt : q0.1 = j.tid
        · simp only [if_pos hqt]
          exact h.noerr q0 hq0
        · simp only [if_neg hqt]
          exact h.noerr q0 hq0

theorem inv_fire {s : LQ} (h : Inv s) (i : Nat) : Inv (fireTimer s i) := by
  rw [fireTimer]
  cases ht : s.timers[i]? with
  | none => exact h
  | some t =>
    dsimp only
    refine @inv_addImage { s with timers := s.timers.eraseIdx i }
      ⟨h.run_jobs, h.run_le, h.nodup, h.sorted, h.qsrc, h.qret, h.jret, ?_, h.mr2, h.noerr⟩
      t.tid t.priority
    intro tm htm
    exact h.tdelay tm ((List.eraseIdx_sublist s.timers i).subset htm)

theorem inv_step {s : LQ} (h : Inv s) (ev : Ev) : Inv (step s ev) := by
  cases ev with
  | add tid p => exact inv_addImage h tid p
  | clear => exact inv_clear h
  | complete i ok => exact inv_settle h i ok
  | fire i => exact inv_fire h i
  | cachePut k v =>
    exact ⟨h.run_jobs, h.run_le, h.nodup, h.sorted, h.qsrc, h.qret, h.jret,
      h.tdelay, h.mr2, h.noerr⟩

theorem inv_run (evs : List Ev) : ∀ s : LQ, Inv s → Inv (run s evs) := by
  induction evs with
  | nil => intro s h; exact h
  | cons ev rest ih =>
    intro s h
    exact ih (step s ev) (inv_step h ev)

theorem reachable_inv {s : LQ} (h : Reachable s) : Inv s := by
  obtain ⟨maxC, dom, evs, rfl⟩ := h
  exact inv_run evs _ (inv_init maxC dom)

theorem processQueue_elems (s : LQ) : (processQueue s).elems = s.elems := by
  rw [processQueue]
  exact (pqAux_frame s.queue s).2.2.2.2.1

theorem processQueue_timers (s : LQ) : (processQueue s).timers = s.timers := by
  rw [processQueue]
  exact (pqAux_frame s.queue s).2.2.2.1

/-! ## Claim theorems -/

/-- **C1** (confirmed): for every sequence of `addImage`, `clear`,
completion and retry-timer events, the running counter satisfies
`0 <= running <= maxConcurrent` at every instant.  The counter always
equals the number of in-flight executions, `processQueue` dispatches only
while `running < maxConcurrent` (and increments synchronously before the
first suspension point), and the decrementing paths (`finally`,
`completeImage`) only run for an execution that incremented it, because a
queued item's element always still carries its `data-src` when it is
dispatched. -/
theorem bounded_concurrency (s : LQ) (h : Reachable s) :
    0 ≤ s.running ∧ s.running ≤ (s.maxConcurrent : Int) := by
  have I := reachable_inv h
  refine ⟨?_, I.run_le⟩
  rw [I.run_jobs]
  exact Int.natCast_nonneg _

/-- Witness for `bounded_concurrency` at a concrete reachable state. -/
theorem bounded_concurrency_witness :
    Reachable (run (init 2 [(0, true)]) [Ev.add 0 0]) ∧
      (0 ≤ (run (init 2 [(0, true)]) [Ev.add 0 0]).running ∧
        (run (init 2 [(0, true)]) [Ev.add 0 0]).running ≤
          ((run (init 2 [(0, true)]) [Ev.add 0 0]).maxConcurrent : Int)) :=
  ⟨⟨2, [(0, true)], [Ev.add 0 0], rfl⟩,
    bounded_concurrency _ ⟨2, [(0, true)], [Ev.add 0 0], rfl⟩⟩

/-- **C2** (code bug): the claim says a target whose fetch always fails
receives exactly `maxRetries + 1 = 3` attempts and then gets the
placeholder and the `error` state.  In the code, the retry path re-enters
`addImage`, which builds a fresh queue item with `retries: 0` (line 63);
the incremented counter lived on the discarded `queueItem`, so the
exhaustion branch (lines 126-129) is unreachable.  Concretely: submit
target 0, fail the attempt, fire the retry timer, three times over.  After
the third failed attempt the element has no `image-error` class and no
placeholder (it still shows `image-loading`), and a fourth attempt is
already scheduled (one pending timer, priority lowered to `-3`). -/
theorem retries_reset_so_error_never_reached :
    (run (init 2 [(0, true)]) [Ev.add 0 0, Ev.complete 0 false, Ev.fire 0,
        Ev.complete 0 false, Ev.fire 0, Ev.complete 0 false]).timers
      = [{ tid := 0, priority := -3, delayMs := 1000 }] ∧
    findElem (run (init 2 [(0, true)]) [Ev.add 0 0, Ev.complete 0 false, Ev.fire 0,
        Ev.complete 0 false, Ev.fire 0, Ev.complete 0 false]).elems 0
      = some { hasSrc := true, loaded := false, loading := true, error := false,
               placeholder := false } := by
  constructor <;> decide

/-- **C3** (confirmed): an execution whose `sourceUrl` hits the persistent
cache (the entry is present and the cache read succeeds) issues no network
fetch: the trace is empty, the materialized cached bytes are applied to
the element, and it is marked loaded (`image-loaded` set, `image-loading`
and `image-error` cleared); the store is untouched and no retry is
scheduled. -/
theorem cache_hit_skips_network (oc : CacheReadFail) (onet : NetRes)
    (ow : CacheWriteFail) (retries : Nat) (priority : Int)
    (maxRetries retryDelay : Nat) (e : ExecElem)
    (store : List (String × String)) (url v : String)
    (hda : e.dataSrc = some url) (hapi : oc.api = true)
    (ho : oc.openThrow = false) (hm : oc.matchThrow = false)
    (hb : oc.blobThrow = false) (hhit : lookupStore store url = some v) :
    loadImageExecE oc onet ow retries priority maxRetries retryDelay e store =
      Except.ok ⟨{ e with src := some ("blob:" ++ v), loaded := true, loading := false, error := false },
        store, [], 0, none⟩ := by
  rw [loadImageExecE, hda]
  have hcache : getCachedImage oc store url = some ("blob:" ++ v) := by
    rw [getCachedImage, getCachedImageE, hapi, ho, hm, hhit, hb]
    rfl
  dsimp only
  rw [hcache]

/-- Witness for `cache_hit_skips_network` on a concrete cache hit. -/
theorem cache_hit_skips_network_witness :
    loadImageExecE ⟨true, false, false, false⟩ NetRes.onload
        ⟨true, false, none, false⟩ 0 0 2 500
        ⟨some "u", none, false, false, false⟩ [("u", "V")] =
      Except.ok ⟨⟨some "u", some ("blob:" ++ "V"), true, false, false⟩,
        [("u", "V")], [], 0, none⟩ :=
  cache_hit_skips_network ⟨true, false, false, false⟩ NetRes.onload
    ⟨true, false, none, false⟩ 0 0 2 500 ⟨some "u", none, false, false, false⟩
    [("u", "V")] "u" "V" rfl rfl rfl rfl rfl (by decide)

/-- **C4** (confirmed): the pending queue never holds two entries with the
same target id, and `addImage` on an already queued target keeps exactly
one entry for it, carrying the latest priority, without changing the
queue's size, the running counter, the in-flight set or the timers (no
scheduler step runs: no new execution is triggered). -/
theorem pending_dedup (s : LQ) (h : Reachable s) (tid : Nat) (p : Int)
    (hin : s.queue.any (fun r => r.tid = tid) = true) :
    (s.queue.map Req.tid).Nodup ∧
    ((addImage s tid p).queue.map Req.tid).count tid = 1 ∧
    (∃ r ∈ (addImage s tid p).queue, r.tid = tid ∧ r.priority = p) ∧
    (addImage s tid p).queue.length = s.queue.length ∧
    (addImage s tid p).running = s.running ∧
    (addImage s tid p).jobs = s.jobs ∧
    (addImage s tid p).timers = s.timers := by
  have I := reachable_inv h
  obtain ⟨r0, hr0, he0⟩ := List.any_eq_true.mp hin
  have ht0 : r0.tid = tid := by simpa using he0
  have hv : hasSrcOf s.elems tid = true := ht0 ▸ I.qsrc r0 hr0
  rw [addImage, if_pos hv, if_pos hin]
  dsimp only
  have hperm := (jsSortDesc_perm (s.queue.map
    (fun r => if r.tid = tid then { r with priority := p } else r))).map Req.tid
  have htid := map_tid_update s.queue tid p
  refine ⟨I.nodup, ?_, ?_, ?_, rfl, rfl, rfl⟩
  · rw [hperm.count_eq, htid]
    exact List.count_eq_one_of_mem I.nodup (List.mem_map.mpr ⟨r0, hr0, ht0⟩)
  · refine ⟨{ r0 with priority := p }, ?_, ht0, rfl⟩
    refine (jsSortDesc_perm _).mem_iff.mpr ?_
    refine List.mem_map.mpr ⟨r0, hr0, ?_⟩
    rw [if_pos ht0]
  · rw [(jsSortDesc_perm _).length_eq, List.length_map]

/-- Witness for `pending_dedup` at a concrete reachable state with a
queued target. -/
theorem pending_dedup_witness :
    Reachable (run (init 1 [(0, true), (1, true)]) [Ev.add 0 9, Ev.add 1 3]) ∧
    ((run (init 1 [(0, true), (1, true)]) [Ev.add 0 9, Ev.add 1 3]).queue.any
        (fun r => r.tid = 1) = true) ∧
    (((run (init 1 [(0, true), (1, true)]) [Ev.add 0 9, Ev.add 1 3]).queue.map Req.tid).Nodup ∧
      (((addImage (run (init 1 [(0, true), (1, true)]) [Ev.add 0 9, Ev.add 1 3]) 1 7).queue.map Req.tid).count 1 = 1) ∧
      (∃ r ∈ (addImage (run (init 1 [(0, true), (1, true)]) [Ev.add 0 9, Ev.add 1 3]) 1 7).queue, r.tid = 1 ∧ r.priority = 7) ∧
      (addImage (run (init 1 [(0, true), (1, true)]) [Ev.add 0 9, Ev.add 1 3]) 1 7).queue.length =
        (run (init 1 [(0, true), (1, true)]) [Ev.add 0 9, Ev.add 1 3]).queue.length ∧
      (addImage (run (init 1 [(0, true), (1, true)]) [Ev.add 0 9, Ev.add 1 3]) 1 7).running =
        (run (init 1 [(0, true), (1, true)]) [Ev.add 0 9, Ev.add 1 3]).running ∧
      (addImage (run (init 1 [(0, true), (1, true)]) [Ev.add 0 9, Ev.add 1 3]) 1 7).jobs =
        (run (init 1 [(0, true), (1, true)]) [Ev.add 0 9, Ev.add 1 3]).jobs ∧
      (addImage (run (init 1 [(0, true), (1, true)]) [Ev.add 0 9, Ev.add 1 3]) 1 7).timers =
        (run (init 1 [(0, true), (1, true)]) [Ev.add 0 9, Ev.add 1 3]).timers) :=
  ⟨⟨1, [(0, true), (1, true)], [Ev.add 0 9, Ev.add 1 3], rfl⟩, by decide,
    pending_dedup _ ⟨1, [(0, true), (1, true)], [Ev.add 0 9, Ev.add 1 3], rfl⟩ 1 7 (by decide)⟩

/-- **C5**, counterexample to the claim as stated: the equal-priority
tie-break is NOT always first-submitted-first-dispatched.  With both
slots busy, submit target 0 at priority 0, then target 1 at priority 5,
then re-submit target 0 at priority 5: the in-place priority update keeps
target 0 behind target 1 (the stable sort preserves the current array
order of now-equal priorities, not submission order).  When a slot frees,
target 1 is dispatched (in-flight ids `[11, 1]`) while the
first-submitted target 0 is still pending with equal priority 5. -/
theorem fifo_tiebreak_violated :
    (run (init 2 [(10, true), (11, true), (0, true), (1, true)])
        [Ev.add 10 9, Ev.add 11 9, Ev.add 0 0, Ev.add 1 5, Ev.add 0 5,
         Ev.complete 0 true]).jobs.map Job.tid = [11, 1] ∧
    (run (init 2 [(10, true), (11, true), (0, true), (1, true)])
        [Ev.add 10 9, Ev.add 11 9, Ev.add 0 0, Ev.add 1 5, Ev.add 0 5,
         Ev.complete 0 true]).queue
      = [{ tid := 0, priority := 5, retries := 0 }] := by
  constructor <;> decide

/-- **C5** (corrected): in every reachable state the pending queue is
sorted by non-increasing priority (so of two simultaneously pending
requests the strictly-higher-priority one is nearer the head, and
dispatch removes the head), and a fresh submission is placed after every
pending entry of greater-or-equal priority - insertion order is the
tie-break for fresh submissions.  The first-submitted-first-dispatched
tie-break holds only in that form: an in-place priority update through a
re-add keeps the entry's current position among equal priorities (see
`fifo_tiebreak_violated`). -/
theorem priority_order_amended (s : LQ) (h : Reachable s) (tid : Nat) (p : Int)
    (hv : hasSrcOf s.elems tid = true)
    (hnot : s.queue.any (fun r => r.tid = tid) = false) :
    QSorted s.queue ∧
    addImage s tid p = processQueue
      { s with queue := insertAfterGe { tid := tid, priority := p, retries := 0 } s.queue } := by
  have I := reachable_inv h
  refine ⟨I.sorted, ?_⟩
  have hne : ¬ (s.queue.any (fun r => r.tid = tid) = true) := by
    rw [hnot]
    simp
  rw [addImage, if_pos hv, if_neg hne]
  dsimp only
  rw [jsSortDesc_push _ I.sorted]

/-- Witness for `priority_order_amended` at a concrete reachable state. -/
theorem priority_order_amended_witness :
    Reachable (run (init 1 [(0, true), (5, true)]) [Ev.add 0 9]) ∧
    hasSrcOf (run (init 1 [(0, true), (5, true)]) [Ev.add 0 9]).elems 5 = true ∧
    (run (init 1 [(0, true), (5, true)]) [Ev.add 0 9]).queue.any (fun r => r.tid = 5) = false ∧
    (QSorted (run (init 1 [(0, true), (5, true)]) [Ev.add 0 9]).queue ∧
      addImage (run (init 1 [(0, true), (5, true)]) [Ev.add 0 9]) 5 3 = processQueue
        { (run (init 1 [(0, true), (5, true)]) [Ev.add 0 9]) with
          queue := insertAfterGe { tid := 5, priority := 3, retries := 0 }
            (run (init 1 [(0, true), (5, true)]) [Ev.add 0 9]).queue }) :=
  ⟨⟨1, [(0, true), (5, true)], [Ev.add 0 9], rfl⟩, by decide, by decide,
    priority_order_amended _ ⟨1, [(0, true), (5, true)], [Ev.add 0 9], rfl⟩ 5 3
      (by decide) (by decide)⟩

/-- **C6** (confirmed): work conservation.  Whenever the scheduler step
returns with a free slot (`running < maxConcurrent`), the pending queue
is empty: every free slot is filled before `processQueue` returns, and
both `addImage` (fresh-submission branch) and every completion path end
in `processQueue`. -/
theorem work_conserving (s : LQ)
    (h : (processQueue s).running < ((processQueue s).maxConcurrent : Int)) :
    (processQueue s).queue = [] := by
  rw [processQueue] at h ⊢
  exact pqAux_post s.queue s h

/-- Witness for `work_conserving` at a concrete state. -/
theorem work_conserving_witness :
    (processQueue (init 2 [])).running < ((processQueue (init 2 [])).maxConcurrent : Int) ∧
      (processQueue (init 2 [])).queue = [] :=
  ⟨by decide, work_conserving _ (by decide)⟩

/-- **C7** (code bug): per failed attempt the code does increment the
(local) retry counter, schedule the re-submission through `addImage` with
priority exactly one lower, and wait `retryDelay * 2 ^ retryCount`
milliseconds (the incremented count) - but because the re-submission
resets `retries` to 0, the second failure schedules another 1000 ms
delay, not the 2000 ms the claim derives: after submitting target 0 and
failing twice (firing the retry timer in between), the pending timer is
`{tid 0, priority -2, delay 1000}` where the claim requires delay
2000. -/
theorem second_retry_delay_still_1000 :
    (run (init 2 [(0, true)]) [Ev.add 0 0, Ev.complete 0 false, Ev.fire 0,
        Ev.complete 0 false]).timers
      = [{ tid := 0, priority := -2, delayMs := 1000 }] := by
  decide

/-- **C8** (confirmed): `clear()` empties the pending queue and changes
nothing else - `running`, `maxConcurrent`, `maxRetries`, `retryDelay`,
the persistent cache store, the in-flight set and the pending retry
timers are untouched - and an in-flight request that later completes or
fails produces exactly the element state and retry timers it would have
produced without the `clear()` (only the dispatch of other pending
requests differs, which is the point of `clear`). -/
theorem clear_isolation (s : LQ) (i : Nat) (ok : Bool) :
    (clear s).queue = [] ∧
    (clear s).running = s.running ∧
    (clear s).maxConcurrent = s.maxConcurrent ∧
    (clear s).maxRetries = s.maxRetries ∧
    (clear s).retryDelay = s.retryDelay ∧
    (clear s).cacheStore = s.cacheStore ∧
    (clear s).jobs = s.jobs ∧
    (clear s).timers = s.timers ∧
    (loadImageSettle (clear s) i ok).elems = (loadImageSettle s i ok).elems ∧
    (loadImageSettle (clear s) i ok).timers = (loadImageSettle s i ok).timers := by
  refine ⟨rfl, rfl, rfl, rfl, rfl, rfl, rfl, rfl, ?_, ?_⟩
  · simp only [loadImageSettle, clear]
    cases hj : s.jobs[i]? with
    | none => rfl
    | some j =>
      have htt : (true = true) := rfl
      have hft : ¬ (false = true) := by simp
      cases ok with
      | true =>
        dsimp only
        rw [if_pos htt, if_pos htt, processQueue_elems, processQueue_elems]
      | false =>
        dsimp only
        rw [if_neg hft, if_neg hft]
        by_cases hr : j.retries < s.maxRetries
        · rw [if_pos hr, if_pos hr, processQueue_elems, processQueue_elems]
        · rw [if_neg hr, if_neg hr, processQueue_elems, processQueue_elems]
  · simp only [loadImageSettle, clear]
    cases hj : s.jobs[i]? with
    | none => rfl
    | some j =>
      have htt : (true = true) := rfl
      have hft : ¬ (false = true) := by simp
      cases ok with
      | true =>
        dsimp only
        rw [if_pos htt, if_pos htt, processQueue_timers, processQueue_timers]
      | false =>
        dsimp only
        rw [if_neg hft, if_neg hft]
        by_cases hr : j.retries < s.maxRetries
        · rw [if_pos hr, if_pos hr, processQueue_timers, processQueue_timers]
        · rw [if_neg hr, if_neg hr, processQueue_timers, processQueue_timers]

/-- **C9** (confirmed): no execution of `loadImage` surfaces an error to
its caller, whatever the collaborators do - cache-read failure (missing
API, `open`/`match`/`blob` throwing), network failure or timeout,
cache-write failure: the promise of the `async` method always resolves
(`Except.ok`), every throw being consumed by the `catch` inside
`getCachedImage`, `cacheImage`, or `loadImage` itself.  (`addImage`,
`clear` and `getQueueStatus` contain no fallible operation at all: they
are total state transformers in this embedding.) -/
theorem no_error_propagation (oc : CacheReadFail) (onet : NetRes)
    (ow : CacheWriteFail) (retries : Nat) (priority : Int)
    (maxRetries retryDelay : Nat) (e : ExecElem)
    (store : List (String × String)) :
    (loadImageExecE oc onet ow retries priority maxRetries retryDelay e store).isOk = true := by
  unfold loadImageExecE
  split
  · rfl
  · split
    · rfl
    · split
      · rfl
      · dsimp only
        split <;> rfl

/-- **C10** (confirmed): the cache-population step issued after a
successful network load leaves the pending queue, the running counter and
the in-flight set unchanged (it can only write the persistent store), and
for a non-`data:` source with the cache API available it issues its own
network fetch of the source URL - a fetch that, `running` being
untouched, is not counted against `maxConcurrent`. -/
theorem cacheImage_frame (s : LQ) (o : CacheWriteFail) (url src : String)
    (hapi : o.api = true) (ho : o.openThrow = false)
    (hdata : "data:".data.isPrefixOf src.data = false) :
    (cacheImageB s o url src).1.queue = s.queue ∧
    (cacheImageB s o url src).1.running = s.running ∧
    (cacheImageB s o url src).1.jobs = s.jobs ∧
    (cacheImageB s o url src).1.maxConcurrent = s.maxConcurrent ∧
    Eff.netFetch src ∈ (cacheImageB s o url src).2 := by
  refine ⟨rfl, rfl, rfl, rfl, ?_⟩
  cases hf : o.fetchRes with
  | none => simp [cacheImageB, cacheImage, cacheImageE, hapi, ho, hdata, hf]
  | some b =>
    cases b <;> cases hp : o.putThrow <;>
      simp [cacheImageB, cacheImage, cacheImageE, hapi, ho, hdata, hf, hp]

/-- Witness for `cacheImage_frame` at a concrete write. -/
theorem cacheImage_frame_witness :
    (cacheImageB (init 2 []) ⟨true, false, some true, false⟩ "u" "http://x").1.queue = (init 2 []).queue ∧
    (cacheImageB (init 2 []) ⟨true, false, some true, false⟩ "u" "http://x").1.running = (init 2 []).running ∧
    (cacheImageB (init 2 []) ⟨true, false, some true, false⟩ "u" "http://x").1.jobs = (init 2 []).jobs ∧
    (cacheImageB (init 2 []) ⟨true, false, some true, false⟩ "u" "http://x").1.maxConcurrent = (init 2 []).maxConcurrent ∧
    Eff.netFetch "http://x" ∈ (cacheImageB (init 2 []) ⟨true, false, some true, false⟩ "u" "http://x").2 :=
  cacheImage_frame (init 2 []) ⟨true, false, some true, false⟩ "u" "http://x"
    rfl rfl (by decide)

end ImageLoadQueue
